import Mathlib

/-!
# Verification of the quant-model backtesting engine and data pipeline

Shallow embedding of `app/core/engine.py` (Backtester, example_sma_strategy)
and `app/data/pipeline.py` (DataPipeline) in Lean 4, with theorems settling
the specification claims.

Numeric model: pandas/NumPy float arithmetic is modelled over `ℚ` extended
with an explicit not-a-number element (`RVal.nan`).  NaN propagates through
arithmetic exactly as IEEE-754 does in the code paths the engine exercises
(in particular `0 * NaN = NaN`).  Division by zero is modelled as `nan`;
every theorem below either hypothesises the divisors away (positive closes,
positive running max) or uses concrete inputs that never divide by zero, so
the IEEE `x/0 = ±inf` distinction is never exercised.  Real-valued
irrational operations of the source (`** (365.25/days)`, `sqrt` inside
`std`, `sqrt(252)`) are passed in as function parameters, since their exact
values are irrational and no claim depends on more than the algebraic facts
stated as hypotheses about them.
-/

/-- A pandas float cell: either NaN or an exact rational value. -/
inductive RVal where
  | nan : RVal
  | val : ℚ → RVal
deriving DecidableEq, Repr

namespace RVal

/-- IEEE addition: NaN propagates. -/
def add : RVal → RVal → RVal
  | val a, val b => val (a + b)
  | _, _ => nan

/-- IEEE subtraction: NaN propagates. -/
def sub : RVal → RVal → RVal
  | val a, val b => val (a - b)
  | _, _ => nan

/-- IEEE multiplication: NaN propagates; note `0 * NaN = NaN`. -/
def mul : RVal → RVal → RVal
  | val a, val b => val (a * b)
  | _, _ => nan

/-- Division: NaN propagates; division by zero modelled as NaN
(unexercised under the positivity hypotheses of the theorems). -/
def div : RVal → RVal → RVal
  | val a, val b => if b = 0 then nan else val (a / b)
  | _, _ => nan

/-- Multiplication by a plain scalar (e.g. `initial_capital * series`). -/
def smul (c : ℚ) : RVal → RVal
  | val a => val (c * a)
  | nan => nan

/-- IEEE `>` comparison: any comparison with NaN is false. -/
def rgt : RVal → RVal → Bool
  | val a, val b => a > b
  | _, _ => false

/-- IEEE `<` comparison: any comparison with NaN is false. -/
def rlt : RVal → RVal → Bool
  | val a, val b => a < b
  | _, _ => false

/-- Extract the rational value, `none` for NaN (used to model skipna). -/
def toOption : RVal → Option ℚ
  | nan => none
  | val a => some a

end RVal

/-! ## Series primitives (pandas operations used by the engine) -/

/-- The non-NaN values of a series, in order (what `skipna=True` sees). -/
def valsOf (xs : List RVal) : List ℚ := xs.filterMap RVal.toOption

/-- `signal.shift(1).fillna(0)` on an integer signal series: the first
position is 0, every later position is the previous signal. -/
def shiftFill (xs : List ℤ) : List ℤ :=
  match xs with
  | [] => []
  | _ :: _ => 0 :: xs.dropLast

/-- Helper for `pct_change`: successive relative changes given the previous
value. -/
def pctChangeAux (prev : ℚ) : List ℚ → List RVal
  | [] => []
  | c :: rest =>
      (RVal.div (RVal.val c) (RVal.val prev)).sub (RVal.val 1) :: pctChangeAux c rest

/-- `close.pct_change()`: NaN at the first period, `close[t]/close[t-1] - 1`
afterwards. -/
def pctChange : List ℚ → List RVal
  | [] => []
  | c :: rest => RVal.nan :: pctChangeAux c rest

/-- `series.cumprod()` with pandas' default `skipna=True`: NaN entries stay
NaN and are skipped by the running product. -/
def cumprodSkip (acc : ℚ) : List RVal → List RVal
  | [] => []
  | RVal.nan :: rest => RVal.nan :: cumprodSkip acc rest
  | RVal.val q :: rest => RVal.val (acc * q) :: cumprodSkip (acc * q) rest

/-- `series.cummax()` with `skipna=True`: NaN entries stay NaN and are
skipped by the running maximum. -/
def cummaxSkip : Option ℚ → List RVal → List RVal
  | _, [] => []
  | acc, RVal.nan :: rest => RVal.nan :: cummaxSkip acc rest
  | some m, RVal.val q :: rest =>
      RVal.val (max m q) :: cummaxSkip (some (max m q)) rest
  | none, RVal.val q :: rest => RVal.val q :: cummaxSkip (some q) rest

/-- `series.min()` with `skipna=True`: minimum of the non-NaN entries, NaN
if there are none. -/
def minSkip (xs : List RVal) : RVal :=
  match valsOf xs with
  | [] => RVal.nan
  | v :: vs => RVal.val (vs.foldl min v)

/-- `series.mean()` with `skipna=True`: mean of the non-NaN entries, NaN if
there are none. -/
def meanSkip (xs : List RVal) : RVal :=
  match valsOf xs with
  | [] => RVal.nan
  | v :: vs => RVal.val ((v :: vs).sum / (v :: vs).length)

/-- Sample variance (`ddof=1`) of a list of rationals (length ≥ 2 assumed
by the caller). -/
def sampleVar (vs : List ℚ) : ℚ :=
  let m := vs.sum / vs.length
  (vs.map (fun x => (x - m) ^ 2)).sum / (vs.length - 1)

/-- `series.std()` with `skipna=True`, `ddof=1`: NaN when fewer than two
non-NaN entries; exactly 0 when the sample variance is 0 (IEEE `sqrt 0 = 0`);
otherwise the square root of the sample variance, supplied by the
parameter `sqrtFn` since it is irrational in general. -/
def stdSkip (sqrtFn : ℚ → ℚ) (xs : List RVal) : RVal :=
  let vs := valsOf xs
  if vs.length < 2 then RVal.nan
  else if sampleVar vs = 0 then RVal.val 0
  else RVal.val (sqrtFn (sampleVar vs))

/-- `rolling(window=w).mean()` with the default `min_periods = w`: NaN until
the window is fully populated, then the trailing simple mean. -/
def rollingMean (w : ℕ) (xs : List ℚ) : List RVal :=
  (List.range xs.length).map (fun t =>
    if 1 ≤ w ∧ w ≤ t + 1 then
      RVal.val (((xs.take (t + 1)).drop (t + 1 - w)).sum / (w : ℚ))
    else RVal.nan)

/-! ## Data model and the Backtester (`app/core/engine.py`) -/

/-- The OHLCV frame as the engine consumes it: a date index (calendar day
numbers) and the `close` column.  The open/high/low/volume/amount columns
are carried by the real frame but never read by `Backtester.run`,
`_calculate_metrics` or `example_sma_strategy`, so they are omitted from
the embedding. -/
structure StockFrame where
  index : List ℤ
  close : List ℚ
deriving DecidableEq, Repr

/-- The five summary metrics returned by `_calculate_metrics`. -/
structure Metrics where
  annualized_return : RVal
  max_drawdown : RVal
  sharpe_ratio : RVal
  win_rate : RVal
  total_trades : ℕ
deriving DecidableEq, Repr

/-- The columns of the working frame `df` inside `Backtester.run` that
`_calculate_metrics` reads. -/
structure RunFrame where
  index : List ℤ
  signal : List ℤ
  position : List ℤ
  strategy_return : List RVal
  equity : List RVal
deriving Repr

/-- The daily risk-free rate `rf = 0.03 / 252` of `_calculate_metrics`. -/
def dailyRf : ℚ := 3 / (100 * 252)

/-- `trades = df[df['strategy_return'] != 0]['strategy_return']`.
In pandas `NaN != 0` is `True`, so NaN strategy returns are kept. -/
def tradesOf (strategyReturn : List RVal) : List RVal :=
  strategyReturn.filter (fun r => r ≠ RVal.val 0)

/-- `(trades > 0).mean()`: fraction of entries greater than 0 (an IEEE
comparison, false for NaN). -/
def winFraction (trades : List RVal) : ℚ :=
  ((trades.filter (fun r => RVal.rgt r (RVal.val 0))).length : ℚ) / trades.length

/-- `Backtester._calculate_metrics`.  `pow` models the Python float `**`
(it may return NaN, e.g. for negative bases) and `sqrtFn`/`sqrt252` model
the irrational square roots; no claim depends on more than the stated
hypotheses about them.  On the empty frame the source would raise on
`iloc[-1]`; the model totalises those reads with defaults, and every
theorem below assumes a non-empty frame. -/
def calculateMetrics (pow : ℚ → ℚ → RVal) (sqrtFn : ℚ → ℚ) (sqrt252 : ℚ)
    (initial_capital : ℚ) (df : RunFrame) : Metrics :=
  let totalReturn :=
    (RVal.div (df.equity.getLastD RVal.nan) (RVal.val initial_capital)).sub (RVal.val 1)
  let days : ℤ := df.index.getLastD 0 - df.index.headD 0
  let annualized :=
    if days ≤ 0 then RVal.val 0
    else
      match totalReturn with
      | RVal.nan => RVal.nan
      | RVal.val tr => (pow (1 + tr) ((36525 : ℚ) / (100 * days))).sub (RVal.val 1)
  let rollingMax := cummaxSkip none df.equity
  let drawdown := List.zipWith (fun e m => RVal.div (e.sub m) m) df.equity rollingMax
  let maxDrawdown := minSkip drawdown
  let excess := df.strategy_return.map (fun r => r.sub (RVal.val dailyRf))
  let sharpe :=
    if stdSkip sqrtFn excess = RVal.val 0 then RVal.val 0
    else (RVal.div (meanSkip excess) (stdSkip sqrtFn excess)).mul (RVal.val sqrt252)
  let trades := tradesOf df.strategy_return
  let winRate := if trades.length > 0 then RVal.val (winFraction trades) else RVal.val 0
  { annualized_return := annualized
    max_drawdown := maxDrawdown
    sharpe_ratio := sharpe
    win_rate := winRate
    total_trades := (df.signal.filter (fun s => s ≠ 0)).length }

/-- The Backtester object: data, initial capital, and the cached last
result (`self.results`). -/
structure Backtester where
  data : StockFrame
  initial_capital : ℚ := 100000
  results : Option (RunFrame × Metrics) := none

/-- The body of `Backtester.run`: build the working copy `df` of the data
with the derived signal/position/return/equity columns, then the metrics. -/
def runFrameOf (b : Backtester) (signals : List ℤ) : RunFrame :=
  let position := shiftFill signals
  let marketReturn := pctChange b.data.close
  let strategyReturn :=
    List.zipWith (fun (p : ℤ) m => (RVal.val (p : ℚ)).mul m) position marketReturn
  let cumulativeReturn := cumprodSkip 1 (strategyReturn.map (fun r => (RVal.val 1).add r))
  let equity := cumulativeReturn.map (RVal.smul b.initial_capital)
  { index := b.data.index
    signal := signals
    position := position
    strategy_return := strategyReturn
    equity := equity }

/-- `Backtester.run`: invoke the strategy on `self.data`, derive the
working frame, compute metrics, cache and return the results.  Strategies
are modelled as pure functions per the strategy contract. -/
def Backtester.run (pow : ℚ → ℚ → RVal) (sqrtFn : ℚ → ℚ) (sqrt252 : ℚ)
    (b : Backtester) (strategy : StockFrame → List ℤ) :
    (RunFrame × Metrics) × Backtester :=
  let df := runFrameOf b (strategy b.data)
  let metrics := calculateMetrics pow sqrtFn sqrt252 b.initial_capital df
  ((df, metrics), { b with results := some (df, metrics) })

/-- `example_sma_strategy`: trailing short/long simple-moving-average
crossover; 1 where short > long, -1 where short < long, else 0 (all
comparisons with a not-yet-populated window are false). -/
def example_sma_strategy (data : StockFrame) (short_window : ℕ := 20)
    (long_window : ℕ := 50) : List ℤ :=
  let smaShort := rollingMean short_window data.close
  let smaLong := rollingMean long_window data.close
  List.zipWith
    (fun s l => if RVal.rgt s l then (1 : ℤ) else if RVal.rlt s l then -1 else 0)
    smaShort smaLong

/-! ## DataPipeline (`app/data/pipeline.py`) -/

/-- `tenacity.wait_exponential(multiplier=1, min=4, max=10)` with the
default `exp_base = 2`: the wait after the `attempt`-th failed attempt. -/
def waitExponential (multiplier minW maxW expBase : ℚ) (attempt : ℕ) : ℚ :=
  max (max 0 minW) (min (multiplier * expBase ^ attempt) maxW)

/-- The wait applied by `fetch_stock_daily`'s retry decorator after the
`attempt`-th failed attempt. -/
def fetchWait (attempt : ℕ) : ℚ := waitExponential 1 4 10 2 attempt

/-- `@retry(stop=stop_after_attempt(n), retry=retry_if_exception_type(Exception),
reraise=True)`: run attempts numbered from `attempt`; on success return the
result, on failure retry while attempts remain, and re-raise the last
attempt's exception unmodified when they run out.  `outcome k` is what the
decorated body does on attempt `k` (any exception triggers a retry). -/
def retryFrom {E A : Type} (outcome : ℕ → Except E A) (attempt : ℕ) :
    ℕ → Except E A
  | 0 => outcome attempt
  | remaining + 1 =>
      match outcome attempt with
      | Except.ok a => Except.ok a
      | Except.error _ => retryFrom outcome (attempt + 1) remaining

/-- `fetch_stock_daily`'s retry wrapper: `stop_after_attempt(3)`, so at
most 3 attempts total. -/
def fetchWithRetry {E A : Type} (outcome : ℕ → Except E A) : Except E A :=
  retryFrom outcome 1 2

/-- `asyncio.gather(*tasks, return_exceptions=True)` over one fetch task
per symbol: one slot per symbol in input order, each holding that symbol's
own result or captured exception. -/
def get_multi_stocks {E A : Type} (fetchResult : String → Except E A)
    (symbols : List String) : List (Except E A) :=
  symbols.map fetchResult

/-- The vendor result: a list of named columns (AkShare's Chinese headers),
each a list of cell values in row order.  Dates are encoded as day
numbers. -/
structure RawFrame where
  cols : List (String × List ℚ)
deriving DecidableEq, Repr

/-- The `rename_map` of `fetch_stock_daily`, as a function on header
names. -/
def renameMap (c : String) : String :=
  if c = "日期" then "date"
  else if c = "开盘" then "open"
  else if c = "收盘" then "close"
  else if c = "最高" then "high"
  else if c = "最低" then "low"
  else if c = "成交量" then "volume"
  else if c = "成交额" then "amount"
  else if c = "振幅" then "amplitude"
  else if c = "涨跌幅" then "pct_chg"
  else if c = "涨跌额" then "change"
  else if c = "换手率" then "turnover"
  else c

/-- A frame after `set_index('date')`: the date index in row order plus the
remaining named columns. -/
structure NormalizedFrame where
  index : List ℚ
  cols : List (String × List ℚ)
deriving DecidableEq, Repr

/-- The normalization section of `fetch_stock_daily` (lines 69–97): rename
the vendor headers with `rename_map`; if no `date` column results, fall
back to renaming the first column to `date`; then set the `date` column as
the index.  `set_index` neither sorts the index nor removes duplicates:
the index is the date column in vendor row order. -/
def normalizeFrame (df : RawFrame) : NormalizedFrame :=
  let renamed := df.cols.map (fun c => (renameMap c.1, c.2))
  let withDate :=
    if (renamed.map Prod.fst).contains "date" then renamed
    else
      match renamed with
      | [] => []
      | c :: rest => ("date", c.2) :: rest
  { index := ((withDate.find? (fun c => c.1 = "date")).map Prod.snd).getD []
    cols := withDate.filter (fun c => c.1 ≠ "date") }

/-- `df.empty`: no columns or no rows. -/
def RawFrame.isEmpty (df : RawFrame) : Bool :=
  df.cols.isEmpty || df.cols.all (fun c => c.2.isEmpty)

/-- The body of one `fetch_stock_daily` attempt after the vendor call
returned `vendor`: empty results are returned as an empty frame (not an
error), otherwise the frame is normalized. -/
def fetchBody (vendor : RawFrame) : NormalizedFrame :=
  if vendor.isEmpty then { index := [], cols := [] }
  else normalizeFrame vendor

/-! ## Concrete instances and fixtures for closed evaluations -/

/-- A concrete instance of the float `**` parameter, exact where the base
is 1 or the exponent 0 and NaN on negative bases; no closed theorem below
depends on the remaining cases. -/
def powInst (b e : ℚ) : RVal :=
  if b = 1 ∨ e = 0 then RVal.val 1
  else if b < 0 then RVal.nan
  else RVal.val 0

/-- A concrete instance of the square-root parameter; no closed theorem
below depends on its values away from 0. -/
def sqrtInst (_ : ℚ) : ℚ := 0

/-- A one-row frame (a single trading day). -/
def oneRowBt : Backtester :=
  { data := { index := [0], close := [100] }, initial_capital := 100000 }

/-- A two-row frame spanning one calendar day. -/
def twoRowBt : Backtester :=
  { data := { index := [0, 1], close := [100, 110] }, initial_capital := 100000 }

/-- A three-row frame spanning two calendar days. -/
def threeRowBt : Backtester :=
  { data := { index := [0, 1, 2], close := [100, 110, 105] }, initial_capital := 100000 }

/-- A three-row frame containing a zero close price. -/
def zeroCloseBt : Backtester :=
  { data := { index := [0, 1, 2], close := [1, 0, 1] }, initial_capital := 100000 }

/-- A three-row frame on which a short-then-long strategy drives equity
negative: position -1 while the market return is +200% gives a strategy
return of -2 in period 1. -/
def negEqBt : Backtester :=
  { data := { index := [0, 1, 2], close := [1, 3, 6] }, initial_capital := 1 }

/-- A working frame in which all three degenerate-metric antecedents hold
at once: zero day-span, two equal defined excess returns, no nonzero
strategy returns. -/
def degenerateDf : RunFrame :=
  { index := [3, 3], signal := [0, 0], position := [0, 0],
    strategy_return := [RVal.val 0, RVal.val 0],
    equity := [RVal.val 1, RVal.val 1] }

/-- A vendor result whose rows carry the vendor's native headers but are in
descending date order. -/
def vendorDesc : RawFrame :=
  { cols := [("日期", [2, 1]), ("开盘", [5, 6]), ("收盘", [7, 8]),
             ("最高", [9, 9]), ("最低", [1, 1]), ("成交量", [3, 4])] }

/-- The per-period drawdowns of a positive equity path, carrying the
running maximum `m`: the pure-rational core of `(equity - cummax) /
cummax` on the defined (non-NaN) part of the equity curve. -/
def ddFrom (m : ℚ) : List ℚ → List ℚ
  | [] => []
  | e :: rest => (e - max m e) / max m e :: ddFrom (max m e) rest

/-- The shape the working frame takes under an all-zero strategy on a
series with positive closes: NaN in the first period, constants after. -/
def flatFrame (cap : ℚ) (idx sig pos : List ℤ) (k : ℕ) : RunFrame :=
  { index := idx, signal := sig, position := pos,
    strategy_return := RVal.nan :: List.replicate k (RVal.val 0),
    equity := RVal.nan :: List.replicate k (RVal.val cap) }

/-- `posDef x`: the cell is NaN or holds a positive value (used to state
that every defined equity value is positive). -/
def RVal.posDef : RVal → Prop
  | RVal.nan => True
  | RVal.val q => 0 < q

instance : DecidablePred RVal.posDef := fun x =>
  match x with
  | RVal.nan => isTrue trivial
  | RVal.val q => inferInstanceAs (Decidable (0 < q))

/-! ## Theorems -/

/-- Index characterization of `shift(1).fillna(0)`: entry 0 is 0, entry `t`
is the previous signal. -/
theorem shiftFill_getElem? (xs : List ℤ) (t : ℕ) (ht : t < xs.length) :
    (shiftFill xs)[t]? = if t = 0 then some 0 else xs[t - 1]? := by
  cases xs with
  | nil => simp at ht
  | cons a as =>
    cases t with
    | zero => simp [shiftFill]
    | succ k =>
      simp only [shiftFill, Nat.succ_ne_zero, if_false, Nat.succ_sub_one]
      have hk : k < (a :: as).length - 1 := by
        simpa [Nat.lt_sub_iff_add_lt] using ht
      have hk' : k < as.length := by simpa using hk
      simp [List.dropLast_eq_take, List.getElem?_take, hk,
        List.getElem?_eq_getElem (lt_of_lt_of_le hk (Nat.sub_le _ _)), hk']

/-- C1: for every input series and every signal series produced by the
strategy, the position series derived by `Backtester.run` satisfies
`position[0] = 0` and `position[t] = signal[t-1]` for `t > 0` (the
one-period no-look-ahead shift). -/
theorem backtest_position_no_lookahead (pow : ℚ → ℚ → RVal) (sqrtFn : ℚ → ℚ)
    (sqrt252 : ℚ) (b : Backtester) (strategy : StockFrame → List ℤ) (t : ℕ)
    (ht : t < (strategy b.data).length) :
    ((Backtester.run pow sqrtFn sqrt252 b strategy).1.1.position)[t]? =
      if t = 0 then some 0 else (strategy b.data)[t - 1]? := by
  have hpos : (Backtester.run pow sqrtFn sqrt252 b strategy).1.1.position =
      shiftFill (strategy b.data) := rfl
  rw [hpos, shiftFill_getElem? _ _ ht]

/-- Witness for C1 at a concrete input. -/
theorem backtest_position_no_lookahead_witness :
    ((Backtester.run powInst sqrtInst 16 threeRowBt
        (fun _ => [1, -1, 0])).1.1.position)[2]? = some (-1) := by
  have h := backtest_position_no_lookahead powInst sqrtInst 16 threeRowBt
    (fun _ => [1, -1, 0]) 2 (by decide)
  simpa using h

/-- C9: `Backtester.run` never mutates the input series it was constructed
with: the derived columns live only on the working copy `df`, and after
`run` returns, `self.data` is element-for-element the series passed to the
constructor. -/
theorem backtest_run_preserves_data (pow : ℚ → ℚ → RVal) (sqrtFn : ℚ → ℚ)
    (sqrt252 : ℚ) (b : Backtester) (strategy : StockFrame → List ℤ) :
    (Backtester.run pow sqrtFn sqrt252 b strategy).2.data = b.data ∧
    (∀ t : ℕ,
      ((Backtester.run pow sqrtFn sqrt252 b strategy).2.data.index)[t]? =
        b.data.index[t]? ∧
      ((Backtester.run pow sqrtFn sqrt252 b strategy).2.data.close)[t]? =
        b.data.close[t]?) :=
  ⟨rfl, fun _ => ⟨rfl, rfl⟩⟩

/-- C5: the retry wrapper makes at most 3 attempts total — the result is
exactly: attempt 1's value if it succeeds, else attempt 2's if it succeeds,
else attempt 3's outcome as-is (so a success on the third attempt is
returned and a third failure re-raises that very exception unmodified);
any exception triggers a retry; and every backoff wait starts at 4 time
units and is capped at 10. -/
theorem fetch_retry_policy {E A : Type} (outcome : ℕ → Except E A) :
    (fetchWithRetry outcome =
      match outcome 1 with
      | Except.ok a => Except.ok a
      | Except.error _ =>
        match outcome 2 with
        | Except.ok a => Except.ok a
        | Except.error _ => outcome 3) ∧
    fetchWait 1 = 4 ∧ (∀ n : ℕ, 4 ≤ fetchWait n ∧ fetchWait n ≤ 10) := by
  refine ⟨?_, by norm_num [fetchWait, waitExponential], fun n => ⟨?_, ?_⟩⟩
  · cases h1 : outcome 1 <;> cases h2 : outcome 2 <;>
      simp [fetchWithRetry, retryFrom, h1, h2]
  · have h4 : (4 : ℚ) ≤ max 0 4 := by norm_num
    exact le_trans h4 (le_max_left _ _)
  · refine max_le (by norm_num) (min_le_right _ _)

/-- C6: the batch fetch returns exactly one slot per symbol, in input
order, and slot `i` is precisely symbol `i`'s own outcome (fetched series
or captured exception), so one symbol's permanent failure cannot abort or
alter any other symbol's slot. -/
theorem multi_fetch_order_isolation {E A : Type} (fetchResult : String → Except E A)
    (symbols : List String) :
    (get_multi_stocks fetchResult symbols).length = symbols.length ∧
    ∀ i : ℕ, (get_multi_stocks fetchResult symbols)[i]? =
      (symbols[i]?).map fetchResult := by
  refine ⟨by simp [get_multi_stocks], fun i => ?_⟩
  simp [get_multi_stocks]

/-- Index characterization of `rolling(window=w).mean()`. -/
theorem rollingMean_getElem? (w : ℕ) (xs : List ℚ) (t : ℕ) (ht : t < xs.length) :
    (rollingMean w xs)[t]? = some (
      if 1 ≤ w ∧ w ≤ t + 1 then
        RVal.val (((xs.take (t + 1)).drop (t + 1 - w)).sum / (w : ℚ))
      else RVal.nan) := by
  simp [rollingMean, List.getElem?_range ht]

/-- C8: the moving-average-crossover strategy emits, at every period,
signal 1 where the trailing short-window simple mean of `close` exceeds
the long-window mean, -1 where it is below, and 0 otherwise — and in the
warm-up region, where a window is not yet fully populated, both
comparisons are false and the signal is 0. -/
theorem sma_strategy_signal (data : StockFrame) (short_window long_window : ℕ)
    (hsw : 1 ≤ short_window) (hlw : 1 ≤ long_window) (t : ℕ)
    (ht : t < data.close.length) :
    (example_sma_strategy data short_window long_window)[t]? = some (
      let sMean := ((data.close.take (t + 1)).drop (t + 1 - short_window)).sum /
        (short_window : ℚ)
      let lMean := ((data.close.take (t + 1)).drop (t + 1 - long_window)).sum /
        (long_window : ℚ)
      if short_window ≤ t + 1 ∧ long_window ≤ t + 1 then
        if sMean > lMean then (1 : ℤ) else if sMean < lMean then -1 else 0
      else 0) := by
  rw [example_sma_strategy]
  rw [List.getElem?_zipWith, rollingMean_getElem? _ _ _ ht,
    rollingMean_getElem? _ _ _ ht]
  by_cases h1 : short_window ≤ t + 1 <;> by_cases h2 : long_window ≤ t + 1 <;>
    simp [h1, h2, hsw, hlw, RVal.rgt, RVal.rlt]

/-- Witness for C8 at a concrete input: close prices `[1, 2, 10, 1]`,
windows 1 and 2; at period 3 the short mean 1 is below the long mean 11/2,
so the signal is -1. -/
theorem sma_strategy_signal_witness :
    (example_sma_strategy { index := [0, 1, 2, 3], close := [1, 2, 10, 1] } 1 2)[3]? =
      some (-1) := by
  have h := sma_strategy_signal { index := [0, 1, 2, 3], close := [1, 2, 10, 1] } 1 2
    (by decide) (by decide) 3 (by decide)
  rw [h]
  norm_num

/-- C7 counterexample: the fetch returns a non-empty vendor result with
descending dates exactly as it came — `set_index('date')` neither sorts
nor deduplicates, so the sorted-ascending-index invariant is not
established by normalization. -/
theorem normalize_not_sorted_counterexample :
    (fetchBody vendorDesc).index = [2, 1] ∧
    ¬ List.Chain' (fun a b : ℚ => a < b) (fetchBody vendorDesc).index := by
  constructor
  · decide
  · intro h
    have h21 : (2 : ℚ) < 1 := by
      have he : (fetchBody vendorDesc).index = [2, 1] := by decide
      rw [he, List.chain'_cons] at h
      exact h.1
    norm_num at h21

/-- C7 amended: for every non-empty vendor result (date column first, no
other column renaming to `date`), the returned series has canonical field
names — every vendor header is renamed by the canonical map, in order —
and its date index is exactly the vendor's date column in vendor row
order; hence the index is sorted strictly ascending with no duplicates if
and only if the vendor's date column already was.  Normalization preserves
the sorted-unique-index invariant; it does not establish it. -/
theorem normalize_preserves_vendor_order (dates : List ℚ)
    (rest : List (String × List ℚ)) (hne : dates ≠ [])
    (hrest : ∀ c ∈ rest, renameMap c.1 ≠ "date") :
    (fetchBody { cols := ("日期", dates) :: rest }).index = dates ∧
    (fetchBody { cols := ("日期", dates) :: rest }).cols =
      rest.map (fun c => (renameMap c.1, c.2)) ∧
    (List.Chain' (fun a b : ℚ => a < b)
        (fetchBody { cols := ("日期", dates) :: rest }).index ↔
      List.Chain' (fun a b : ℚ => a < b) dates) := by
  have hnotempty : ({ cols := ("日期", dates) :: rest } : RawFrame).isEmpty = false := by
    simp [RawFrame.isEmpty, List.all_cons, hne]
  have hbody : fetchBody { cols := ("日期", dates) :: rest } =
      normalizeFrame { cols := ("日期", dates) :: rest } := by
    simp [fetchBody, hnotempty]
  rw [hbody]
  have hfilter :
      ((rest.map (fun c => (renameMap c.1, c.2))).filter (fun c => c.1 ≠ "date")) =
        rest.map (fun c => (renameMap c.1, c.2)) := by
    rw [List.filter_eq_self]
    intro a ha
    rcases List.mem_map.mp ha with ⟨c, hc, hac⟩
    subst hac
    simpa using hrest c hc
  have hren : (({ cols := ("日期", dates) :: rest } : RawFrame).cols).map
      (fun c => (renameMap c.1, c.2)) =
      ("date", dates) :: rest.map (fun c => (renameMap c.1, c.2)) := by
    simp [renameMap]
  have hnf : normalizeFrame { cols := ("日期", dates) :: rest } =
      { index := dates, cols := rest.map (fun c => (renameMap c.1, c.2)) } := by
    simp only [normalizeFrame, hren]
    have hc : ((("date", dates) :: rest.map fun c => (renameMap c.1, c.2)).map
        Prod.fst).contains "date" = true := by
      simp
    rw [if_pos hc, List.find?_cons_of_pos _ (by simp),
      List.filter_cons_of_neg (by simp), hfilter]
    rfl
  rw [hnf]
  exact ⟨rfl, rfl, Iff.rfl⟩

/-- Witness for the amended C7 at a concrete input. -/
theorem normalize_preserves_vendor_order_witness :
    (fetchBody { cols := [("日期", [1, 2]), ("开盘", [5, 6])] }).index = [1, 2] ∧
    (fetchBody { cols := [("日期", [1, 2]), ("开盘", [5, 6])] }).cols =
      [("open", [5, 6])] := by
  have h := normalize_preserves_vendor_order [1, 2] [("开盘", [5, 6])]
    (by decide) (by decide)
  exact ⟨h.1, by simpa [renameMap] using h.2.1⟩

/-- Projection of `_calculate_metrics` at the win-rate field. -/
theorem calculateMetrics_win_rate (pow : ℚ → ℚ → RVal) (sqrtFn : ℚ → ℚ)
    (sqrt252 : ℚ) (cap : ℚ) (df : RunFrame) :
    (calculateMetrics pow sqrtFn sqrt252 cap df).win_rate =
      if (tradesOf df.strategy_return).length > 0 then
        RVal.val (winFraction (tradesOf df.strategy_return))
      else RVal.val 0 := rfl

/-- Projection of `_calculate_metrics` at the max-drawdown field. -/
theorem calculateMetrics_max_drawdown (pow : ℚ → ℚ → RVal) (sqrtFn : ℚ → ℚ)
    (sqrt252 : ℚ) (cap : ℚ) (df : RunFrame) :
    (calculateMetrics pow sqrtFn sqrt252 cap df).max_drawdown =
      minSkip (List.zipWith (fun e m => RVal.div (e.sub m) m) df.equity
        (cummaxSkip none df.equity)) := rfl

/-- Projection of `_calculate_metrics` at the annualized-return field. -/
theorem calculateMetrics_annualized (pow : ℚ → ℚ → RVal) (sqrtFn : ℚ → ℚ)
    (sqrt252 : ℚ) (cap : ℚ) (df : RunFrame) :
    (calculateMetrics pow sqrtFn sqrt252 cap df).annualized_return =
      (if df.index.getLastD 0 - df.index.headD 0 ≤ 0 then RVal.val 0
       else
        match (RVal.div (df.equity.getLastD RVal.nan) (RVal.val cap)).sub (RVal.val 1) with
        | RVal.nan => RVal.nan
        | RVal.val tr =>
            (pow (1 + tr)
              ((36525 : ℚ) /
                (100 * ((df.index.getLastD 0 - df.index.headD 0 : ℤ) : ℚ)))).sub
              (RVal.val 1)) := rfl

/-- Projection of `_calculate_metrics` at the Sharpe-ratio field. -/
theorem calculateMetrics_sharpe (pow : ℚ → ℚ → RVal) (sqrtFn : ℚ → ℚ)
    (sqrt252 : ℚ) (cap : ℚ) (df : RunFrame) :
    (calculateMetrics pow sqrtFn sqrt252 cap df).sharpe_ratio =
      (if stdSkip sqrtFn (df.strategy_return.map (fun r => r.sub (RVal.val dailyRf))) =
          RVal.val 0 then RVal.val 0
       else (RVal.div (meanSkip (df.strategy_return.map (fun r => r.sub (RVal.val dailyRf))))
          (stdSkip sqrtFn (df.strategy_return.map (fun r => r.sub (RVal.val dailyRf))))).mul
          (RVal.val sqrt252)) := rfl

/-- The working frame's strategy-return column starts with NaN: the first
position is 0 and the first market return is NaN, and `0 * NaN = NaN`. -/
theorem runFrame_strategy_return_cons (b : Backtester) (s : ℤ) (ss : List ℤ)
    (c : ℚ) (cs : List ℚ) (hc : b.data.close = c :: cs) :
    (runFrameOf b (s :: ss)).strategy_return =
      RVal.nan :: List.zipWith (fun (p : ℤ) m => (RVal.val (p : ℚ)).mul m)
        ((s :: ss).dropLast) (pctChangeAux c cs) := by
  simp [runFrameOf, hc, shiftFill, pctChange, RVal.mul]

/-- C10: for every non-empty input series, the first period's
strategy_return is NaN (position 0 times the undefined first market
return); since `NaN != 0` holds, this first period is always in the trades
set, so the empty-trades fallback is unreachable and `win_rate` is the
positive fraction over a denominator that counts the undefined first
period. -/
theorem first_period_return_nan_in_trades (pow : ℚ → ℚ → RVal) (sqrtFn : ℚ → ℚ)
    (sqrt252 : ℚ) (b : Backtester) (strategy : StockFrame → List ℤ)
    (hne : b.data.close ≠ [])
    (hlen : (strategy b.data).length = b.data.close.length) :
    ((Backtester.run pow sqrtFn sqrt252 b strategy).1.1.strategy_return)[0]? =
      some RVal.nan ∧
    RVal.nan ∈ tradesOf (Backtester.run pow sqrtFn sqrt252 b strategy).1.1.strategy_return ∧
    tradesOf (Backtester.run pow sqrtFn sqrt252 b strategy).1.1.strategy_return ≠ [] ∧
    (Backtester.run pow sqrtFn sqrt252 b strategy).1.2.win_rate =
      RVal.val (winFraction
        (tradesOf (Backtester.run pow sqrtFn sqrt252 b strategy).1.1.strategy_return)) := by
  rcases hc : b.data.close with _ | ⟨c, cs⟩
  · exact absurd hc hne
  rcases hs : strategy b.data with _ | ⟨s, ss⟩
  · rw [hs, hc] at hlen
    simp at hlen
  have hdf : (Backtester.run pow sqrtFn sqrt252 b strategy).1.1 =
      runFrameOf b (strategy b.data) := rfl
  obtain ⟨rest, hsr⟩ : ∃ rest,
      (runFrameOf b (strategy b.data)).strategy_return = RVal.nan :: rest :=
    ⟨_, by rw [hs]; exact runFrame_strategy_return_cons b s ss c cs hc⟩
  have htr : tradesOf (runFrameOf b (strategy b.data)).strategy_return =
      RVal.nan :: tradesOf rest := by
    rw [hsr]
    simp [tradesOf, List.filter_cons]
  refine ⟨by rw [hdf, hsr]; simp, by rw [hdf, htr]; exact List.mem_cons_self _ _,
    by rw [hdf, htr]; exact List.cons_ne_nil _ _, ?_⟩
  have hm : (Backtester.run pow sqrtFn sqrt252 b strategy).1.2 =
      calculateMetrics pow sqrtFn sqrt252 b.initial_capital
        (runFrameOf b (strategy b.data)) := rfl
  rw [hm, hdf, calculateMetrics_win_rate, if_pos]
  rw [htr]
  exact Nat.succ_pos _

/-- Witness for C10 at a concrete input. -/
theorem first_period_return_nan_in_trades_witness :
    ((Backtester.run powInst sqrtInst 16 threeRowBt
        (fun _ => [1, 0, -1])).1.1.strategy_return)[0]? = some RVal.nan :=
  (first_period_return_nan_in_trades powInst sqrtInst 16 threeRowBt
    (fun _ => [1, 0, -1]) (by decide) (by decide)).1

/-- NaN cells are invisible to skipna aggregations. -/
theorem valsOf_nan_cons (l : List RVal) : valsOf (RVal.nan :: l) = valsOf l := rfl

/-- Defined cells survive skipna aggregation. -/
theorem valsOf_val_cons (q : ℚ) (l : List RVal) :
    valsOf (RVal.val q :: l) = q :: valsOf l := rfl

/-- skipna over an all-defined series sees exactly the values. -/
theorem valsOf_map_val (xs : List ℚ) : valsOf (xs.map RVal.val) = xs := by
  induction xs with
  | nil => rfl
  | cons x xs ih => rw [List.map_cons, valsOf_val_cons, ih]

/-- C2 (amended): on every working frame the metrics computation is total
and the three degenerate cases fall back to the explicit constant 0: a
zero-or-negative calendar-day span yields `annualized_return = 0`, at
least two defined excess returns of zero sample variance yield
`sharpe_ratio = 0`, and an empty trades set yields `win_rate = 0`.  (The
original claim's "never produces a not-a-number metric" is false: see the
counterexample, where a single-row series produces NaN `max_drawdown` and
NaN `sharpe_ratio`.) -/
theorem metrics_degenerate_fallbacks (pow : ℚ → ℚ → RVal) (sqrtFn : ℚ → ℚ)
    (sqrt252 : ℚ) (cap : ℚ) (df : RunFrame) :
    (df.index.getLastD 0 - df.index.headD 0 ≤ 0 →
      (calculateMetrics pow sqrtFn sqrt252 cap df).annualized_return = RVal.val 0) ∧
    (2 ≤ (valsOf (df.strategy_return.map (fun r => r.sub (RVal.val dailyRf)))).length →
      sampleVar (valsOf (df.strategy_return.map (fun r => r.sub (RVal.val dailyRf)))) = 0 →
      (calculateMetrics pow sqrtFn sqrt252 cap df).sharpe_ratio = RVal.val 0) ∧
    (tradesOf df.strategy_return = [] →
      (calculateMetrics pow sqrtFn sqrt252 cap df).win_rate = RVal.val 0) := by
  refine ⟨fun hd => ?_, fun h2 hv => ?_, fun ht => ?_⟩
  · rw [calculateMetrics_annualized, if_pos hd]
  · rw [calculateMetrics_sharpe, if_pos]
    simp [stdSkip, Nat.not_lt.mpr h2, hv]
  · rw [calculateMetrics_win_rate, ht]
    simp

/-- Witness for the amended C2 at a concrete frame where all three
degenerate antecedents hold at once. -/
theorem metrics_degenerate_fallbacks_witness :
    (calculateMetrics powInst sqrtInst 16 1 degenerateDf).annualized_return = RVal.val 0 ∧
    (calculateMetrics powInst sqrtInst 16 1 degenerateDf).sharpe_ratio = RVal.val 0 ∧
    (calculateMetrics powInst sqrtInst 16 1 degenerateDf).win_rate = RVal.val 0 := by
  obtain ⟨h1, h2, h3⟩ := metrics_degenerate_fallbacks powInst sqrtInst 16 1 degenerateDf
  have hex : valsOf (degenerateDf.strategy_return.map
      (fun r => r.sub (RVal.val dailyRf))) = [-dailyRf, -dailyRf] := by
    simp [degenerateDf, valsOf, RVal.sub, RVal.toOption]
  refine ⟨h1 (by decide), h2 ?_ ?_, h3 (by decide)⟩
  · rw [hex]
    simp
  · rw [hex]
    norm_num [sampleVar]

/-- C2 counterexample: on a single-row series the metrics computation does
produce not-a-number metrics: `max_drawdown` is the min of an all-NaN
drawdown series, and the standard deviation of fewer than two defined
excess returns is NaN, which passes the `!= 0` test and propagates into
`sharpe_ratio`. -/
theorem metrics_nan_counterexample :
    (Backtester.run powInst sqrtInst 16 oneRowBt (fun _ => [0])).1.2.max_drawdown =
      RVal.nan ∧
    (Backtester.run powInst sqrtInst 16 oneRowBt (fun _ => [0])).1.2.sharpe_ratio =
      RVal.nan := by
  constructor <;> decide

/-- skipna over a constant defined series sees the constant values. -/
theorem valsOf_replicate_val (k : ℕ) (x : ℚ) :
    valsOf (List.replicate k (RVal.val x)) = List.replicate k x := by
  induction k with
  | zero => rfl
  | succ k ih => rw [List.replicate_succ, valsOf_val_cons, ih, List.replicate_succ]

/-- Shifting an all-zero signal series yields the all-zero position series. -/
theorem shiftFill_replicate (n : ℕ) :
    shiftFill (List.replicate n (0 : ℤ)) = List.replicate n 0 := by
  cases n with
  | zero => rfl
  | succ k =>
    show 0 :: (List.replicate (k + 1) (0 : ℤ)).dropLast = _
    rw [List.dropLast_eq_take, List.length_replicate, Nat.add_sub_cancel,
      List.take_replicate, min_eq_left (Nat.le_succ k), List.replicate_succ]

/-- With nonzero closes, every percent change after the first period is a
defined value. -/
theorem pctChangeAux_eq_map (prev : ℚ) (cs : List ℚ) (hprev : prev ≠ 0)
    (hcs : ∀ x ∈ cs, x ≠ 0) :
    ∃ vs : List ℚ, pctChangeAux prev cs = vs.map RVal.val ∧
      vs.length = cs.length := by
  induction cs generalizing prev with
  | nil => exact ⟨[], rfl, rfl⟩
  | cons c cs ih =>
    obtain ⟨vs, hvs, hlen⟩ := ih c (hcs c (by simp)) (fun x hx => hcs x (by simp [hx]))
    refine ⟨(c / prev - 1) :: vs, ?_, by simp [hlen]⟩
    simp [pctChangeAux, RVal.div, RVal.sub, hprev, hvs]

/-- An all-zero position wipes out every defined market return. -/
theorem zipWith_zero_position (vs : List ℚ) :
    List.zipWith (fun (p : ℤ) m => (RVal.val (p : ℚ)).mul m)
      (List.replicate vs.length (0 : ℤ)) (vs.map RVal.val) =
      List.replicate vs.length (RVal.val 0) := by
  induction vs with
  | nil => rfl
  | cons v vs ih =>
    rw [List.length_cons, List.replicate_succ, List.map_cons,
      List.zipWith_cons_cons, ih, List.replicate_succ]
    norm_num [RVal.mul]

/-- Cumulative product of an all-ones series carries the accumulator. -/
theorem cumprodSkip_replicate_one (a : ℚ) (k : ℕ) :
    cumprodSkip a (List.replicate k (RVal.val 1)) =
      List.replicate k (RVal.val a) := by
  induction k generalizing a with
  | zero => rfl
  | succ k ih => simp [List.replicate_succ, cumprodSkip, ih]

/-- Running maximum of a constant defined series is the series itself. -/
theorem cummaxSkip_replicate (m : ℚ) (k : ℕ) :
    cummaxSkip (some m) (List.replicate k (RVal.val m)) =
      List.replicate k (RVal.val m) := by
  induction k with
  | zero => rfl
  | succ k ih => simp [List.replicate_succ, cummaxSkip, ih]

/-- Running maximum of a NaN-headed constant series. -/
theorem cummaxSkip_nan_replicate (m : ℚ) (k : ℕ) :
    cummaxSkip none (RVal.nan :: List.replicate k (RVal.val m)) =
      RVal.nan :: List.replicate k (RVal.val m) := by
  cases k with
  | zero => rfl
  | succ j =>
    rw [List.replicate_succ]
    show RVal.nan :: RVal.val m ::
      cummaxSkip (some m) (List.replicate j (RVal.val m)) = _
    rw [cummaxSkip_replicate]

/-- Last element of a nonempty constant series. -/
theorem getLastD_replicate {α : Type} (k : ℕ) (x d : α) :
    (List.replicate (k + 1) x).getLastD d = x := by
  induction k with
  | zero => rfl
  | succ k ih =>
    rw [List.replicate_succ, List.getLastD_cons]
    exact ih

/-- Projection of `_calculate_metrics` at the total-trades field. -/
theorem calculateMetrics_total_trades (pow : ℚ → ℚ → RVal) (sqrtFn : ℚ → ℚ)
    (sqrt252 : ℚ) (cap : ℚ) (df : RunFrame) :
    (calculateMetrics pow sqrtFn sqrt252 cap df).total_trades =
      (df.signal.filter (fun s => s ≠ 0)).length := rfl

/-- A left fold by `min` never exceeds its initial value. -/
theorem foldl_min_le_init (ds : List ℚ) (a : ℚ) : ds.foldl min a ≤ a := by
  induction ds generalizing a with
  | nil => exact le_refl a
  | cons d ds ih => exact le_trans (ih (min a d)) (min_le_left a d)

/-- A left fold by `min` never exceeds any list element. -/
theorem foldl_min_le_mem (ds : List ℚ) :
    ∀ a d : ℚ, d ∈ ds → ds.foldl min a ≤ d := by
  induction ds with
  | nil => intro a d hd; simp at hd
  | cons e ds ih =>
    intro a d hd
    rcases List.mem_cons.mp hd with h | h
    · subst h
      exact le_trans (foldl_min_le_init ds (min a d)) (min_le_right a d)
    · exact ih (min a e) d h

/-- A lower bound of the initial value and of every element bounds the
fold. -/
theorem le_foldl_min (ds : List ℚ) (a b : ℚ) (ha : b ≤ a)
    (hds : ∀ d ∈ ds, b ≤ d) : b ≤ ds.foldl min a := by
  induction ds generalizing a with
  | nil => exact ha
  | cons d ds ih =>
    exact ih (min a d) (le_min ha (hds d (by simp))) (fun e he => hds e (by simp [he]))

/-- `min()` of a NaN-headed series whose defined part starts at `q`. -/
theorem minSkip_nan_cons_map (q : ℚ) (qs : List ℚ) :
    minSkip (RVal.nan :: (q :: qs).map RVal.val) =
      RVal.val (qs.foldl min q) := by
  rw [minSkip, valsOf_nan_cons, List.map_cons, valsOf_val_cons, valsOf_map_val]

/-- `min()` of an all-zero drawdown series with a NaN head. -/
theorem minSkip_nan_replicate_zero (k : ℕ) (hk : k ≠ 0) :
    minSkip (RVal.nan :: List.replicate k (RVal.val 0)) = RVal.val 0 := by
  obtain ⟨j, rfl⟩ : ∃ j, k = j + 1 := ⟨k - 1, by omega⟩
  rw [show List.replicate (j + 1) (RVal.val (0 : ℚ)) =
      ((0 : ℚ) :: List.replicate j 0).map RVal.val by
        rw [List.map_cons, List.map_replicate, List.replicate_succ],
    minSkip_nan_cons_map]
  congr 1
  refine le_antisymm (foldl_min_le_init _ _) (le_foldl_min _ _ _ le_rfl ?_)
  intro d hd
  rw [List.eq_of_mem_replicate hd]

/-- The sample variance of a constant sample is zero. -/
theorem sampleVar_replicate (k : ℕ) (hk : k ≠ 0) (x : ℚ) :
    sampleVar (List.replicate k x) = 0 := by
  have hk' : (k : ℚ) ≠ 0 := Nat.cast_ne_zero.mpr hk
  have hmean : (List.replicate k x).sum / ((List.replicate k x).length : ℚ) = x := by
    rw [List.sum_replicate, List.length_replicate, nsmul_eq_mul,
      mul_div_cancel_left₀ x hk']
  rw [sampleVar]
  simp only [hmean]
  rw [show ((List.replicate k x).map (fun y => (y - x) ^ 2)) =
    List.replicate k ((x - x) ^ 2) from List.map_replicate]
  simp

/-- The drawdown series of a NaN-headed constant positive equity curve is
zero after the first period. -/
theorem drawdown_flat (cap : ℚ) (hcap : cap ≠ 0) (k : ℕ) :
    List.zipWith (fun e m => RVal.div (e.sub m) m)
      (RVal.nan :: List.replicate k (RVal.val cap))
      (RVal.nan :: List.replicate k (RVal.val cap)) =
      RVal.nan :: List.replicate k (RVal.val 0) := by
  rw [List.zipWith_cons_cons, List.zipWith_replicate, min_self]
  simp [RVal.sub, RVal.div, hcap]

/-- `_calculate_metrics` on the flat frame produced by an all-zero
strategy: all five metrics are zero. -/
theorem metrics_of_flat (pow : ℚ → ℚ → RVal) (sqrtFn : ℚ → ℚ)
    (sqrt252 cap : ℚ) (idx sig pos : List ℤ) (k : ℕ) (h2 : 2 ≤ k)
    (hcap : cap ≠ 0) (hdays : 0 < idx.getLastD 0 - idx.headD 0)
    (hpow : ∀ e : ℚ, pow 1 e = RVal.val 1) (hsig : ∀ s ∈ sig, s = 0) :
    (calculateMetrics pow sqrtFn sqrt252 cap
      (flatFrame cap idx sig pos k)).annualized_return = RVal.val 0 ∧
    (calculateMetrics pow sqrtFn sqrt252 cap
      (flatFrame cap idx sig pos k)).max_drawdown = RVal.val 0 ∧
    (calculateMetrics pow sqrtFn sqrt252 cap
      (flatFrame cap idx sig pos k)).sharpe_ratio = RVal.val 0 ∧
    (calculateMetrics pow sqrtFn sqrt252 cap
      (flatFrame cap idx sig pos k)).win_rate = RVal.val 0 ∧
    (calculateMetrics pow sqrtFn sqrt252 cap
      (flatFrame cap idx sig pos k)).total_trades = 0 := by
  have hlast : ((RVal.nan :: List.replicate k (RVal.val cap)).getLastD RVal.nan) =
      RVal.val cap := by
    obtain ⟨j, rfl⟩ : ∃ j, k = j + 1 := ⟨k - 1, by omega⟩
    rw [List.getLastD_cons, getLastD_replicate]
  refine ⟨?_, ?_, ?_, ?_, ?_⟩
  · rw [calculateMetrics_annualized]
    simp only [flatFrame]
    rw [if_neg (not_le.mpr hdays), hlast]
    simp [RVal.div, RVal.sub, hcap, div_self hcap, hpow]
  · rw [calculateMetrics_max_drawdown]
    simp only [flatFrame]
    rw [cummaxSkip_nan_replicate, drawdown_flat cap hcap,
      minSkip_nan_replicate_zero k (by omega)]
  · rw [calculateMetrics_sharpe]
    simp only [flatFrame]
    have hmap : (RVal.nan :: List.replicate k (RVal.val 0)).map
        (fun r => r.sub (RVal.val dailyRf)) =
        RVal.nan :: List.replicate k (RVal.val (-dailyRf)) := by
      simp [RVal.sub]
    have hstd : stdSkip sqrtFn (RVal.nan :: List.replicate k (RVal.val (-dailyRf))) =
        RVal.val 0 := by
      simp only [stdSkip, valsOf_nan_cons, valsOf_replicate_val, List.length_replicate]
      rw [if_neg (Nat.not_lt.mpr h2), if_pos (sampleVar_replicate k (by omega) _)]
    rw [hmap, if_pos hstd]
  · rw [calculateMetrics_win_rate]
    simp only [flatFrame]
    have htr : tradesOf (RVal.nan :: List.replicate k (RVal.val 0)) = [RVal.nan] := by
      simp [tradesOf, List.filter_cons]
    rw [htr]
    simp [winFraction, RVal.rgt]
  · rw [calculateMetrics_total_trades]
    simp only [flatFrame]
    rw [List.filter_eq_nil_iff.mpr (fun s hs => by simp [hsig s hs])]
    rfl

/-- Under an all-zero signal series with nonzero closes, the working frame
has the flat shape: strategy returns are NaN then zero, equity is NaN then
constant at the initial capital. -/
theorem zero_signal_frame (b : Backtester) (hne : b.data.close ≠ [])
    (hcl : ∀ x ∈ b.data.close, x ≠ 0) :
    (runFrameOf b (List.replicate b.data.close.length 0)).strategy_return =
      RVal.nan :: List.replicate (b.data.close.length - 1) (RVal.val 0) ∧
    (runFrameOf b (List.replicate b.data.close.length 0)).equity =
      RVal.nan :: List.replicate (b.data.close.length - 1)
        (RVal.val b.initial_capital) := by
  rcases hc : b.data.close with _ | ⟨c, cs⟩
  · exact absurd hc hne
  obtain ⟨vs, hvs, hvslen⟩ := pctChangeAux_eq_map c cs (hcl c (by rw [hc]; simp))
    (fun x hx => hcl x (by rw [hc]; simp [hx]))
  simp only [List.length_cons, Nat.add_sub_cancel]
  have hsr : (runFrameOf b (List.replicate (cs.length + 1) 0)).strategy_return =
      RVal.nan :: List.replicate cs.length (RVal.val 0) := by
    show List.zipWith _ (shiftFill (List.replicate (cs.length + 1) 0))
      (pctChange b.data.close) = _
    rw [hc, shiftFill_replicate, List.replicate_succ]
    show List.zipWith _ (0 :: List.replicate cs.length 0)
      (RVal.nan :: pctChangeAux c cs) = _
    rw [hvs, List.zipWith_cons_cons, ← hvslen, zipWith_zero_position]
    norm_num [RVal.mul]
  refine ⟨hsr, ?_⟩
  show (cumprodSkip 1
      ((runFrameOf b (List.replicate (cs.length + 1) 0)).strategy_return.map
        (fun r => (RVal.val 1).add r))).map (RVal.smul b.initial_capital) = _
  rw [hsr, List.map_cons, List.map_replicate]
  norm_num [RVal.add]
  rw [show cumprodSkip 1 (RVal.nan :: List.replicate cs.length (RVal.val 1)) =
      RVal.nan :: cumprodSkip 1 (List.replicate cs.length (RVal.val 1)) from rfl,
    cumprodSkip_replicate_one, List.map_cons, List.map_replicate]
  norm_num [RVal.smul]

/-- C4 amended: for every input series with at least 3 rows, strictly
positive closes and a positive calendar-day span, running the backtest
with a strategy that returns an all-zero signal series yields equity
constant at `initial_capital` for every period after the first, and
`annualized_return = 0`, `max_drawdown = 0`, `sharpe_ratio = 0`,
`win_rate = 0`, `total_trades = 0`.  (The original claim over every
non-empty positive-span series is false: see the counterexample — with
only 2 rows the Sharpe fallback is bypassed by a NaN standard deviation,
and a zero close makes an equity entry NaN.) -/
theorem zero_signal_backtest (pow : ℚ → ℚ → RVal) (sqrtFn : ℚ → ℚ)
    (sqrt252 : ℚ) (b : Backtester) (strategy : StockFrame → List ℤ)
    (h3 : 3 ≤ b.data.close.length)
    (hsig : strategy b.data = List.replicate b.data.close.length 0)
    (hcl : ∀ x ∈ b.data.close, (0 : ℚ) < x)
    (hdays : 0 < b.data.index.getLastD 0 - b.data.index.headD 0)
    (hcap : b.initial_capital ≠ 0)
    (hpow : ∀ e : ℚ, pow 1 e = RVal.val 1) :
    (∀ t : ℕ, 1 ≤ t → t < b.data.close.length →
      ((Backtester.run pow sqrtFn sqrt252 b strategy).1.1.equity)[t]? =
        some (RVal.val b.initial_capital)) ∧
    (Backtester.run pow sqrtFn sqrt252 b strategy).1.2.annualized_return = RVal.val 0 ∧
    (Backtester.run pow sqrtFn sqrt252 b strategy).1.2.max_drawdown = RVal.val 0 ∧
    (Backtester.run pow sqrtFn sqrt252 b strategy).1.2.sharpe_ratio = RVal.val 0 ∧
    (Backtester.run pow sqrtFn sqrt252 b strategy).1.2.win_rate = RVal.val 0 ∧
    (Backtester.run pow sqrtFn sqrt252 b strategy).1.2.total_trades = 0 := by
  have hne : b.data.close ≠ [] := by
    intro h
    rw [h] at h3
    simp at h3
  obtain ⟨hsr, heq⟩ := zero_signal_frame b hne (fun x hx => ne_of_gt (hcl x hx))
  have hdf : (Backtester.run pow sqrtFn sqrt252 b strategy).1.1 =
      runFrameOf b (List.replicate b.data.close.length 0) := by
    show runFrameOf b (strategy b.data) = _
    rw [hsig]
  have hmet : (Backtester.run pow sqrtFn sqrt252 b strategy).1.2 =
      calculateMetrics pow sqrtFn sqrt252 b.initial_capital
        (runFrameOf b (List.replicate b.data.close.length 0)) := by
    show calculateMetrics pow sqrtFn sqrt252 b.initial_capital
      (runFrameOf b (strategy b.data)) = _
    rw [hsig]
  have hframe : runFrameOf b (List.replicate b.data.close.length 0) =
      flatFrame b.initial_capital b.data.index
        (List.replicate b.data.close.length 0)
        (List.replicate b.data.close.length 0) (b.data.close.length - 1) := by
    simp only [runFrameOf, flatFrame, RunFrame.mk.injEq]
    exact ⟨trivial, trivial, shiftFill_replicate _, hsr, heq⟩
  obtain ⟨hm1, hm2, hm3, hm4, hm5⟩ := metrics_of_flat pow sqrtFn sqrt252
    b.initial_capital b.data.index (List.replicate b.data.close.length 0)
    (List.replicate b.data.close.length 0) (b.data.close.length - 1)
    (by omega) hcap hdays hpow (fun s hs => List.eq_of_mem_replicate hs)
  refine ⟨?_, ?_, ?_, ?_, ?_, ?_⟩
  · intro t h1 htl
    rw [hdf, heq]
    obtain ⟨s, rfl⟩ : ∃ s, t = s + 1 := ⟨t - 1, by omega⟩
    rw [List.getElem?_cons_succ, List.getElem?_replicate_of_lt (by omega)]
  · rw [hmet, hframe]
    exact hm1
  · rw [hmet, hframe]
    exact hm2
  · rw [hmet, hframe]
    exact hm3
  · rw [hmet, hframe]
    exact hm4
  · rw [hmet, hframe]
    exact hm5

/-- Witness for the amended C4 at a concrete input. -/
theorem zero_signal_backtest_witness :
    ((Backtester.run powInst sqrtInst 16 threeRowBt
        (fun d => List.replicate d.close.length 0)).1.1.equity)[2]? =
      some (RVal.val 100000) ∧
    (Backtester.run powInst sqrtInst 16 threeRowBt
        (fun d => List.replicate d.close.length 0)).1.2.sharpe_ratio =
      RVal.val 0 := by
  have h := zero_signal_backtest powInst sqrtInst 16 threeRowBt
    (fun d => List.replicate d.close.length 0) (by decide) rfl (by decide)
    (by decide) (by decide) (fun e => by norm_num [powInst])
  exact ⟨h.1 2 (by decide) (by decide), h.2.2.2.1⟩

/-- C4 counterexample: with an all-zero signal series, a two-row series
spanning one calendar day yields `sharpe_ratio = NaN`, not 0 (the ddof=1
standard deviation of a single defined excess return is NaN, which passes
the `!= 0` test); and a three-row positive-span series containing a zero
close has an undefined (NaN) equity entry instead of the constant initial
capital (in IEEE terms the market return after a zero close is infinite
and position 0 times it is NaN; the model reaches the same NaN verdict
directly). -/
theorem zero_signal_counterexample :
    (Backtester.run powInst sqrtInst 16 twoRowBt (fun _ => [0, 0])).1.2.sharpe_ratio =
      RVal.nan ∧
    ((Backtester.run powInst sqrtInst 16 zeroCloseBt
        (fun _ => [0, 0, 0])).1.1.equity)[2]? = some RVal.nan := by
  constructor <;> decide

/-- Every per-period drawdown against a positive running maximum is ≤ 0. -/
theorem ddFrom_nonpos (es : List ℚ) :
    ∀ m : ℚ, 0 < m → (∀ x ∈ es, 0 < x) → ∀ d ∈ ddFrom m es, d ≤ 0 := by
  induction es with
  | nil =>
    intro m _ _ d hd
    simp [ddFrom] at hd
  | cons e es ih =>
    intro m hm hes d hd
    simp only [ddFrom] at hd
    rcases List.mem_cons.mp hd with h | h
    · subst h
      have hmax : (0 : ℚ) < max m e := lt_max_of_lt_left hm
      have hnum : e - max m e ≤ 0 := sub_nonpos.mpr (le_max_right m e)
      exact div_nonpos_iff.mpr (Or.inr ⟨hnum, hmax.le⟩)
    · exact ih (max m e) (lt_max_of_lt_left hm)
        (fun x hx => hes x (List.mem_cons_of_mem _ hx)) d h

/-- All drawdowns vanish exactly when equity never falls below its
history: the defined equity path ascends from the seed. -/
theorem ddFrom_zero_iff (es : List ℚ) :
    ∀ m : ℚ, 0 < m → (∀ x ∈ es, 0 < x) →
      ((∀ d ∈ ddFrom m es, d = 0) ↔ List.Chain (fun a b : ℚ => a ≤ b) m es) := by
  induction es with
  | nil =>
    intro m _ _
    constructor
    · intro _
      exact List.Chain.nil
    · intro _ d hd
      simp [ddFrom] at hd
  | cons e es ih =>
    intro m hm hes
    have hmax : (0 : ℚ) < max m e := lt_max_of_lt_left hm
    have he : (0 : ℚ) < e := hes e (List.mem_cons_self _ _)
    have hes' : ∀ x ∈ es, (0 : ℚ) < x :=
      fun x hx => hes x (List.mem_cons_of_mem _ hx)
    constructor
    · intro h
      have h0 : (e - max m e) / max m e = 0 := h _ (by simp [ddFrom])
      have hsub : e - max m e = 0 := by
        rcases div_eq_zero_iff.mp h0 with h' | h'
        · exact h'
        · exact absurd h' (ne_of_gt hmax)
      have hme : m ≤ e := max_eq_right_iff.mp (sub_eq_zero.mp hsub).symm
      refine List.chain_cons.mpr ⟨hme, ?_⟩
      refine (ih e he hes').mp ?_
      intro d hd
      refine h d ?_
      simp only [ddFrom]
      refine List.mem_cons_of_mem _ ?_
      rw [max_eq_right hme]
      exact hd
    · intro h
      rcases List.chain_cons.mp h with ⟨hme, hch⟩
      have hmaxe : max m e = e := max_eq_right hme
      intro d hd
      simp only [ddFrom] at hd
      rcases List.mem_cons.mp hd with h' | h'
      · rw [h', hmaxe, sub_self, zero_div]
      · rw [hmaxe] at h'
        exact (ih e he hes').mpr hch d h'

/-- The RVal drawdown pipeline on an all-defined positive equity path is
the pure `ddFrom` computation. -/
theorem drawdown_map_val (es : List ℚ) :
    ∀ m : ℚ, 0 < m → (∀ x ∈ es, 0 < x) →
      List.zipWith (fun e mx => RVal.div (e.sub mx) mx) (es.map RVal.val)
        (cummaxSkip (some m) (es.map RVal.val)) = (ddFrom m es).map RVal.val := by
  induction es with
  | nil =>
    intro m _ _
    rfl
  | cons e es ih =>
    intro m hm hes
    have hmax : (0 : ℚ) < max m e := lt_max_of_lt_left hm
    show List.zipWith _ (RVal.val e :: es.map RVal.val)
      (RVal.val (max m e) :: cummaxSkip (some (max m e)) (es.map RVal.val)) = _
    rw [List.zipWith_cons_cons,
      ih (max m e) hmax (fun x hx => hes x (List.mem_cons_of_mem _ hx))]
    show (if max m e = 0 then RVal.nan else RVal.val ((e - max m e) / max m e)) :: _ = _
    rw [if_neg (ne_of_gt hmax)]
    rfl

/-- The full drawdown column: NaN at the first period, 0 at the first
defined period, then the pure drawdowns. -/
theorem drawdown_full (e : ℚ) (es : List ℚ) (he : 0 < e)
    (hes : ∀ x ∈ es, 0 < x) :
    List.zipWith (fun ev mx => RVal.div (ev.sub mx) mx)
      (RVal.nan :: (e :: es).map RVal.val)
      (cummaxSkip none (RVal.nan :: (e :: es).map RVal.val)) =
      RVal.nan :: ((0 : ℚ) :: ddFrom e es).map RVal.val := by
  show List.zipWith _ (RVal.nan :: RVal.val e :: es.map RVal.val)
    (RVal.nan :: RVal.val e :: cummaxSkip (some e) (es.map RVal.val)) = _
  rw [List.zipWith_cons_cons, List.zipWith_cons_cons, drawdown_map_val es e he hes]
  show RVal.nan :: (if (e : ℚ) = 0 then RVal.nan else RVal.val ((e - e) / e)) :: _ = _
  rw [if_neg (ne_of_gt he), sub_self, zero_div]
  rfl

/-- Positions (integers) times defined market returns are defined. -/
theorem zipWith_posmul_vals (ps : List ℤ) :
    ∀ vs : List ℚ, ∃ ws : List ℚ,
      List.zipWith (fun (p : ℤ) m => (RVal.val (p : ℚ)).mul m) ps (vs.map RVal.val) =
        ws.map RVal.val ∧ ws.length = min ps.length vs.length := by
  induction ps with
  | nil =>
    intro vs
    exact ⟨[], rfl, by simp⟩
  | cons p ps ih =>
    intro vs
    cases vs with
    | nil => exact ⟨[], rfl, by simp⟩
    | cons v vs =>
      obtain ⟨ws, hws, hlen⟩ := ih vs
      refine ⟨((p : ℚ) * v) :: ws, ?_, by simp [hlen, Nat.succ_min_succ]⟩
      rw [List.map_cons, List.zipWith_cons_cons, hws]
      rfl

/-- Cumulative products of defined series are defined. -/
theorem cumprodSkip_map_val (xs : List ℚ) :
    ∀ a : ℚ, ∃ es : List ℚ,
      cumprodSkip a (xs.map RVal.val) = es.map RVal.val ∧
        es.length = xs.length := by
  induction xs with
  | nil =>
    intro a
    exact ⟨[], rfl, rfl⟩
  | cons x xs ih =>
    intro a
    obtain ⟨es, hes, hlen⟩ := ih (a * x)
    refine ⟨(a * x) :: es, ?_, by simp [hlen]⟩
    rw [List.map_cons]
    show RVal.val (a * x) :: cumprodSkip (a * x) (xs.map RVal.val) = _
    rw [hes]
    rfl

/-- With at least two rows and nonzero closes, the equity column is NaN at
the first period followed by a non-empty all-defined tail. -/
theorem runFrame_equity_shape (b : Backtester) (signals : List ℤ)
    (h2 : 2 ≤ b.data.close.length)
    (hlen : signals.length = b.data.close.length)
    (hcl : ∀ x ∈ b.data.close, x ≠ 0) :
    ∃ (e : ℚ) (es : List ℚ), (runFrameOf b signals).equity =
      RVal.nan :: ((e :: es).map RVal.val) := by
  rcases hc : b.data.close with _ | ⟨c, cs⟩
  · rw [hc] at h2
    simp at h2
  rcases hs : signals with _ | ⟨s, ss⟩
  · rw [hs] at hlen
    rw [hc] at hlen
    simp at hlen
  obtain ⟨vs, hvs, hvslen⟩ := pctChangeAux_eq_map c cs (hcl c (by rw [hc]; simp))
    (fun x hx => hcl x (by rw [hc]; simp [hx]))
  obtain ⟨ws, hws, hwslen⟩ := zipWith_posmul_vals ((s :: ss).dropLast) vs
  have hsr : (runFrameOf b signals).strategy_return =
      RVal.nan :: ws.map RVal.val := by
    show List.zipWith _ (shiftFill signals) (pctChange b.data.close) = _
    rw [hs, hc]
    show List.zipWith _ (0 :: (s :: ss).dropLast) (RVal.nan :: pctChangeAux c cs) = _
    rw [hvs, List.zipWith_cons_cons, hws]
    rfl
  have honeadd : (ws.map RVal.val).map (fun r => (RVal.val 1).add r) =
      (ws.map (fun w => 1 + w)).map RVal.val := by
    rw [List.map_map, List.map_map]
    rfl
  obtain ⟨es, hes, heslen⟩ := cumprodSkip_map_val (ws.map (fun w => 1 + w)) 1
  have heq : (runFrameOf b signals).equity =
      RVal.nan :: (es.map (fun x => b.initial_capital * x)).map RVal.val := by
    show (cumprodSkip 1 ((runFrameOf b signals).strategy_return.map
        (fun r => (RVal.val 1).add r))).map (RVal.smul b.initial_capital) = _
    rw [hsr, List.map_cons, honeadd]
    show RVal.nan ::
      (cumprodSkip 1 ((ws.map (fun w => 1 + w)).map RVal.val)).map
        (RVal.smul b.initial_capital) = _
    rw [hes, List.map_map, List.map_map]
    rfl
  have hlen2 : es.length = cs.length := by
    rw [heslen, List.length_map, hwslen, hvslen]
    have : ss.length = cs.length := by
      have := hlen
      rw [hs, hc] at this
      simpa using this
    simp [this]
  rcases hce : es.map (fun x => b.initial_capital * x) with _ | ⟨e0, es0⟩
  · have hes0 : es = [] := by
      have := congrArg List.length hce
      simpa using this
    rw [hes0] at hlen2
    have hcs : cs = [] := List.length_eq_zero.mp (by simpa using hlen2.symm)
    rw [hc, hcs] at h2
    simp at h2
  refine ⟨e0, es0, ?_⟩
  rw [hs] at heq
  rw [heq, hce]

/-- C3 amended: for every input series with at least 2 rows and positive
closes, and a run whose defined equity values are all positive,
`max_drawdown` is a defined value ≤ 0, and it equals 0 if and only if the
defined part of the equity curve is non-decreasing throughout.  (The
original claim over every non-empty series is false: see the
counterexample — a single-row series makes `max_drawdown` NaN, and a run
whose equity goes negative has `max_drawdown = 0` with strictly decreasing
equity.) -/
theorem max_drawdown_characterization (pow : ℚ → ℚ → RVal) (sqrtFn : ℚ → ℚ)
    (sqrt252 : ℚ) (b : Backtester) (strategy : StockFrame → List ℤ)
    (h2 : 2 ≤ b.data.close.length)
    (hlen : (strategy b.data).length = b.data.close.length)
    (hcl : ∀ x ∈ b.data.close, (0 : ℚ) < x)
    (hpos : ∀ x ∈ (Backtester.run pow sqrtFn sqrt252 b strategy).1.1.equity,
      x.posDef) :
    (∃ q : ℚ, (Backtester.run pow sqrtFn sqrt252 b strategy).1.2.max_drawdown =
      RVal.val q ∧ q ≤ 0) ∧
    ((Backtester.run pow sqrtFn sqrt252 b strategy).1.2.max_drawdown = RVal.val 0 ↔
      List.Chain' (fun a b : ℚ => a ≤ b)
        (valsOf (Backtester.run pow sqrtFn sqrt252 b strategy).1.1.equity)) := by
  obtain ⟨e, es, heq⟩ := runFrame_equity_shape b (strategy b.data) h2 hlen
    (fun x hx => ne_of_gt (hcl x hx))
  have hdf : (Backtester.run pow sqrtFn sqrt252 b strategy).1.1.equity =
      RVal.nan :: (e :: es).map RVal.val := heq
  have hpe : (0 : ℚ) < e := hpos (RVal.val e) (by rw [hdf]; simp)
  have hpes : ∀ x ∈ es, (0 : ℚ) < x := by
    intro x hx
    refine hpos (RVal.val x) ?_
    rw [hdf]
    simp only [List.mem_cons, List.mem_map]
    exact Or.inr ⟨x, Or.inr hx, rfl⟩
  have hmd : (Backtester.run pow sqrtFn sqrt252 b strategy).1.2.max_drawdown =
      RVal.val ((ddFrom e es).foldl min 0) := by
    have hmet : (Backtester.run pow sqrtFn sqrt252 b strategy).1.2 =
        calculateMetrics pow sqrtFn sqrt252 b.initial_capital
          (runFrameOf b (strategy b.data)) := rfl
    rw [hmet, calculateMetrics_max_drawdown,
      show (runFrameOf b (strategy b.data)).equity =
        RVal.nan :: (e :: es).map RVal.val from heq,
      drawdown_full e es hpe hpes, minSkip_nan_cons_map]
  have hval : valsOf (Backtester.run pow sqrtFn sqrt252 b strategy).1.1.equity =
      e :: es := by
    rw [hdf, valsOf_nan_cons, valsOf_map_val]
  have hnonpos := ddFrom_nonpos es e hpe hpes
  constructor
  · exact ⟨_, hmd, foldl_min_le_init _ _⟩
  · rw [hmd, hval]
    constructor
    · intro h
      have hfold : (ddFrom e es).foldl min 0 = 0 := by
        simpa using h
      have hall : ∀ d ∈ ddFrom e es, d = 0 := by
        intro d hd
        have hle := foldl_min_le_mem (ddFrom e es) 0 d hd
        rw [hfold] at hle
        exact le_antisymm (hnonpos d hd) hle
      show List.Chain (fun a b : ℚ => a ≤ b) e es
      exact (ddFrom_zero_iff es e hpe hpes).mp hall
    · intro h
      have hch : List.Chain (fun a b : ℚ => a ≤ b) e es := h
      have hall := (ddFrom_zero_iff es e hpe hpes).mpr hch
      have hfold : (ddFrom e es).foldl min 0 = 0 :=
        le_antisymm (foldl_min_le_init _ _)
          (le_foldl_min _ _ _ le_rfl (fun d hd => (hall d hd).ge))
      rw [hfold]

/-- Witness for the amended C3 at a concrete input: an always-long
strategy on a three-row series. -/
theorem max_drawdown_characterization_witness :
    (∃ q : ℚ, (Backtester.run powInst sqrtInst 16 threeRowBt
        (fun _ => [1, 1, 1])).1.2.max_drawdown = RVal.val q ∧ q ≤ 0) ∧
    ((Backtester.run powInst sqrtInst 16 threeRowBt
        (fun _ => [1, 1, 1])).1.2.max_drawdown = RVal.val 0 ↔
      List.Chain' (fun a b : ℚ => a ≤ b)
        (valsOf (Backtester.run powInst sqrtInst 16 threeRowBt
          (fun _ => [1, 1, 1])).1.1.equity)) := by
  refine max_drawdown_characterization powInst sqrtInst 16 threeRowBt
    (fun _ => [1, 1, 1]) (by decide) (by decide) (by decide) ?_
  have he : (Backtester.run powInst sqrtInst 16 threeRowBt
      (fun _ => [1, 1, 1])).1.1.equity =
      [RVal.nan, RVal.val 110000, RVal.val 105000] := by
    show (runFrameOf threeRowBt [1, 1, 1]).equity = _
    norm_num [runFrameOf, threeRowBt, shiftFill, pctChange, pctChangeAux,
      cumprodSkip, RVal.mul, RVal.add, RVal.sub, RVal.div, RVal.smul]
  rw [he]
  intro x hx
  simp only [List.mem_cons, List.not_mem_nil, or_false] at hx
  rcases hx with rfl | rfl | rfl <;> norm_num [RVal.posDef]

/-- C3 counterexample: on a single-row series `max_drawdown` is NaN, which
is not ≤ 0; and on a three-row series where a short position drives equity
negative (equity NaN, -1, -2: strictly decreasing), the rolling maximum is
negative, the later drawdown is positive, and `max_drawdown` is exactly 0
even though equity is decreasing — both directions of the claim fail. -/
theorem max_drawdown_counterexample :
    (Backtester.run powInst sqrtInst 16 oneRowBt (fun _ => [1])).1.2.max_drawdown =
      RVal.nan ∧
    ((Backtester.run powInst sqrtInst 16 negEqBt
        (fun _ => [-1, 1, 0])).1.2.max_drawdown = RVal.val 0 ∧
      valsOf (Backtester.run powInst sqrtInst 16 negEqBt
        (fun _ => [-1, 1, 0])).1.1.equity = [-1, -2] ∧
      ¬ List.Chain' (fun a b : ℚ => a ≤ b) [(-1 : ℚ), -2]) := by
  have he : (Backtester.run powInst sqrtInst 16 negEqBt
      (fun _ => [-1, 1, 0])).1.1.equity =
      [RVal.nan, RVal.val (-1), RVal.val (-2)] := by
    show (runFrameOf negEqBt [-1, 1, 0]).equity = _
    norm_num [runFrameOf, negEqBt, shiftFill, pctChange, pctChangeAux,
      cumprodSkip, RVal.mul, RVal.add, RVal.sub, RVal.div, RVal.smul]
  refine ⟨by decide, ?_, ?_, ?_⟩
  · rw [show (Backtester.run powInst sqrtInst 16 negEqBt
        (fun _ => [-1, 1, 0])).1.2 =
      calculateMetrics powInst sqrtInst 16 negEqBt.initial_capital
        (runFrameOf negEqBt [-1, 1, 0]) from rfl]
    rw [calculateMetrics_max_drawdown,
      show (runFrameOf negEqBt [-1, 1, 0]).equity =
        [RVal.nan, RVal.val (-1), RVal.val (-2)] from he]
    norm_num [cummaxSkip, minSkip, valsOf, RVal.toOption, RVal.sub, RVal.div,
      List.filterMap_cons, List.filterMap_nil, List.foldl, min_def]
  · rw [he]
    rfl
  · intro h
    have h12 : (-1 : ℚ) ≤ -2 := (List.chain'_cons.mp h).1
    norm_num at h12
